import Mathlib

/-!
Verification of `benchmark.py` (DS-AsyncIO-Benchmark): a shallow embedding of
the benchmarking script's pure computations (`parse_size`,
`calculate_statistics`), of the event trace produced by `benchmark` / `main`,
and of the spec-level async engine construction contract.

Modelling conventions:
* Python floats are idealised as exact rationals (`ℚ`); IEEE rounding is not
  modelled.  `np.sqrt` / `np.std`'s internal square root and scipy's Student-t
  quantile are transcendental, so they are passed in as abstract function
  parameters (`sqrt`, `tppf`).
* Python strings are modelled as `List Char`; Python exceptions as
  `Except`-style error results.
* The side-effecting benchmark loop is modelled as the list of externally
  visible events it performs, in program order, plus a filesystem
  state machine over those events.
-/

namespace DSAIO

/-! ## Python string helpers (`str.upper`, `str.strip`, `float`, `int`) -/

/-- ASCII decimal digit test (Python's digits accepted by `float`/`int`). -/
def isDig (c : Char) : Bool := decide (48 ≤ c.toNat) && decide (c.toNat ≤ 57)

/-- Whitespace stripped by Python's `str.strip()`. -/
def isWS (c : Char) : Bool :=
  decide (c = ' ') || decide (c = '\t') || decide (c = '\n') || decide (c = '\r')
    || decide (c.toNat = 11) || decide (c.toNat = 12)

/-- Python `str.upper()` on a single ASCII character. -/
def pyUpper (c : Char) : Char :=
  if 97 ≤ c.toNat && c.toNat ≤ 122 then Char.ofNat (c.toNat - 32) else c

/-- Python `str.strip()`: drop whitespace from both ends. -/
def pyStrip (l : List Char) : List Char :=
  ((l.dropWhile isWS).reverse.dropWhile isWS).reverse

/-- Value of a decimal digit string (most significant digit first). -/
def digitsVal (l : List Char) : Nat :=
  l.foldl (fun a c => 10 * a + (c.toNat - 48)) 0

/-- Split an optional leading sign (`+`/`-`) off a numeric literal. -/
def pySign (l : List Char) : ℚ × List Char :=
  match l with
  | [] => (1, [])
  | c :: r => if c = '+' then (1, r) else if c = '-' then (-1, r) else (1, c :: r)

/-- Python `float()` restricted to plain decimal literals: optional sign,
integer digits, optional `.` and fraction digits, at least one digit in
total.  The IEEE rounding of the parse is idealised as an exact rational. -/
def pyFloat (l : List Char) : Option ℚ :=
  let s := pySign l
  let ip := s.2.takeWhile isDig
  let r2 := s.2.dropWhile isDig
  if r2 = [] then
    if ip = [] then none else some (s.1 * digitsVal ip)
  else if r2.headD ' ' = '.' && r2.tail.all isDig && !(ip = [] && r2.tail = []) then
    some (s.1 * ((digitsVal ip : ℚ) + (digitsVal r2.tail : ℚ) / 10 ^ r2.tail.length))
  else none

/-- Split an optional leading sign off an integer literal (sign as `Int`). -/
def pyIntSign (l : List Char) : Int × List Char :=
  match l with
  | [] => (1, [])
  | c :: r => if c = '+' then (1, r) else if c = '-' then (-1, r) else (1, c :: r)

/-- Python `int()` on a decimal integer literal: optional sign then digits. -/
def pyInt (l : List Char) : Option Int :=
  let s := pyIntSign l
  if !(s.2 = []) && s.2.all isDig then some (s.1 * digitsVal s.2) else none

/-- Python `int()` applied to a float value: truncation toward zero
(`Int.tdiv` truncates toward zero, like Python `int()`). -/
def pyTrunc (q : ℚ) : Int := q.num.tdiv q.den

/-- `parse_size` from `benchmark.py`: uppercase and strip the string, then
dispatch on a trailing `K`/`M`/`G` multiplier, computing
`int(float(prefix) * mult)`, or `int(s)` when no suffix is present. -/
def parse_size (l : List Char) : Except String Int :=
  let t := pyStrip (l.map pyUpper)
  if t.getLast? = some 'K' then
    match pyFloat t.dropLast with
    | some q => Except.ok (pyTrunc (q * 1024))
    | none => Except.error "ValueError: could not convert string to float"
  else if t.getLast? = some 'M' then
    match pyFloat t.dropLast with
    | some q => Except.ok (pyTrunc (q * 1024 * 1024))
    | none => Except.error "ValueError: could not convert string to float"
  else if t.getLast? = some 'G' then
    match pyFloat t.dropLast with
    | some q => Except.ok (pyTrunc (q * 1024 * 1024 * 1024))
    | none => Except.error "ValueError: could not convert string to float"
  else
    match pyInt t with
    | some v => Except.ok v
    | none => Except.error "ValueError: invalid literal for int"

/-- The byte multiplier the claim associates to each (uppercased) suffix. -/
def suffixMult (c : Char) : ℚ :=
  if c = 'K' then 1024 else if c = 'M' then 1024 * 1024
  else if c = 'G' then 1024 * 1024 * 1024 else 1

/-! ## Statistics (`calculate_statistics`)

`np.mean`, `np.median`, `np.std` (population), `np.percentile` (linear
interpolation) over exact rationals.  The square root inside `np.std` /
`np.sqrt` and scipy's Student-t 97.5% quantile `t.ppf` are abstract
parameters `sqrt : ℚ → ℚ` and `tppf : ℕ → ℚ` (indexed by degrees of
freedom); `t.interval(cl, df, loc, scale) = (loc - tppf df * scale,
loc + tppf df * scale)`. -/

/-- `np.mean`. -/
def npMean (xs : List ℚ) : ℚ := xs.sum / xs.length

/-- Ascending sort used by `np.median` / `np.percentile`. -/
def sortQ (xs : List ℚ) : List ℚ := xs.insertionSort (· ≤ ·)

/-- `np.median`: middle element of the sorted data, or the average of the two
middle elements for even length. -/
def npMedian (xs : List ℚ) : ℚ :=
  let s := sortQ xs
  let n := s.length
  if n % 2 = 1 then s.getD (n / 2) 0
  else (s.getD (n / 2 - 1) 0 + s.getD (n / 2) 0) / 2

/-- Population variance, so that `np.std xs = sqrt (npVar xs)`. -/
def npVar (xs : List ℚ) : ℚ :=
  npMean (xs.map (fun x => (x - npMean xs) ^ 2))

/-- `np.percentile` with the default linear interpolation: the value at
fractional rank `q / 100 * (n - 1)` of the sorted data. -/
def npPercentile (xs : List ℚ) (q : ℚ) : ℚ :=
  let s := sortQ xs
  let n := s.length
  let pos := q * ((n : ℚ) - 1) / 100
  let k := (Int.floor pos).toNat
  let frac := pos - (k : ℚ)
  if k + 1 < n then s.getD k 0 + frac * (s.getD (k + 1) 0 - s.getD k 0)
  else s.getD (n - 1) 0

/-- One statistics block of the result dictionary: mean, median, standard
deviation, 95% confidence interval, and 50th/90th/99th percentiles. -/
structure Stats where
  mean : ℚ
  median : ℚ
  std_dev : ℚ
  ci_lo : ℚ
  ci_hi : ℚ
  p50 : ℚ
  p90 : ℚ
  p99 : ℚ
deriving Repr, DecidableEq

/-- The dictionary returned by `calculate_statistics`: a latency block and a
bandwidth (MB/s) block. -/
structure StatsResult where
  latency : Stats
  bandwidth_mb_s : Stats
deriving Repr, DecidableEq

/-- `calculate_statistics` from `benchmark.py`, line for line: raise on an
empty sample list; compute latency statistics; form the bandwidth list
`[size_bytes / lat / 1e6 for lat in latencies if lat > 0]`; raise if any
latency was filtered out; compute bandwidth statistics. -/
def calculate_statistics (sqrt : ℚ → ℚ) (tppf : ℕ → ℚ)
    (latencies : List ℚ) (size_bytes : ℚ) : Except String StatsResult :=
  if latencies.isEmpty then
    Except.error "No latencies provided for statistics."
  else
    let mean_lat := npMean latencies
    let median_lat := npMedian latencies
    let std_dev_lat := sqrt (npVar latencies)
    let degrees_freedom := latencies.length - 1
    let sample_standard_error := std_dev_lat / sqrt (latencies.length : ℚ)
    let ci_lat_lo := mean_lat - tppf degrees_freedom * sample_standard_error
    let ci_lat_hi := mean_lat + tppf degrees_freedom * sample_standard_error
    let bandwidths :=
      (latencies.filter (fun lat => decide (0 < lat))).map
        (fun lat => size_bytes / lat / 1000000)
    if bandwidths.length ≠ latencies.length then
      Except.error "Some latencies were zero; cannot compute bandwidth."
    else
      let mean_bw := npMean bandwidths
      let median_bw := npMedian bandwidths
      let std_dev_bw := sqrt (npVar bandwidths)
      let sample_standard_error_bw := std_dev_bw / sqrt (bandwidths.length : ℚ)
      Except.ok
        { latency :=
            { mean := mean_lat
              median := median_lat
              std_dev := std_dev_lat
              ci_lo := ci_lat_lo
              ci_hi := ci_lat_hi
              p50 := npPercentile latencies 50
              p90 := npPercentile latencies 90
              p99 := npPercentile latencies 99 }
          bandwidth_mb_s :=
            { mean := mean_bw
              median := median_bw
              std_dev := std_dev_bw
              ci_lo := mean_bw - tppf degrees_freedom * sample_standard_error_bw
              ci_hi := mean_bw + tppf degrees_freedom * sample_standard_error_bw
              p50 := npPercentile bandwidths 50
              p90 := npPercentile bandwidths 90
              p99 := npPercentile bandwidths 99 } }

/-- The statistics block the claim describes for a list of samples: mean,
median, standard deviation, 95% confidence interval and 50th/90th/99th
percentiles of the samples (stated from the claim's words, for comparison
with the code path of `calculate_statistics`). -/
def specStats (sqrt : ℚ → ℚ) (tppf : ℕ → ℚ) (xs : List ℚ) : Stats :=
  { mean := npMean xs
    median := npMedian xs
    std_dev := sqrt (npVar xs)
    ci_lo := npMean xs - tppf (xs.length - 1) * (sqrt (npVar xs) / sqrt (xs.length : ℚ))
    ci_hi := npMean xs + tppf (xs.length - 1) * (sqrt (npVar xs) / sqrt (xs.length : ℚ))
    p50 := npPercentile xs 50
    p90 := npPercentile xs 90
    p99 := npPercentile xs 99 }

/-- `True` exactly on `Except.error`. -/
def exceptIsError {ε α : Type} : Except ε α → Bool
  | Except.error _ => true
  | Except.ok _ => false

/-! ## Event-trace model of `benchmark` and `main`

The benchmark loop's externally visible actions, in program order.  A test
file `f"test_write_\x7bsize\x7d_\x7bi\x7d.swap"` is identified by its
`(size, i)` pair (the formatting is injective in the two components). -/

/-- Direction of an I/O operation. -/
inductive Dir
  | write
  | read
deriving Repr, DecidableEq

/-- A test file path `test_write_{size}_{i}.swap` under the NVMe dir. -/
structure TestFile where
  size : Int
  idx : Nat
deriving Repr, DecidableEq

/-- Externally visible actions of `main` / `benchmark`, in program order. -/
inductive Event
  /-- `shutil.rmtree(nvme_path)` in `main`. -/
  | rmtree
  /-- `nvme_dir.mkdir(parents=True, exist_ok=True)`. -/
  | mkdir
  /-- `torch.empty(..., pin_memory=True)` buffer allocation. -/
  | alloc
  /-- `start = time.perf_counter()`. -/
  | timerStart
  /-- `aio_handle.async_pwrite` / `async_pread` submission. -/
  | submit (d : Dir) (f : TestFile)
  /-- `aio_handle.wait()`. -/
  | wait
  /-- `end = time.perf_counter()`. -/
  | timerEnd
  /-- `latencies.append(end - start)`. -/
  | record (d : Dir)
  /-- `file.unlink(missing_ok=True)`. -/
  | unlink (f : TestFile)
deriving Repr, DecidableEq

/-- One iteration of a benchmark loop body: allocate the pinned tensor, take
the start timestamp, submit, wait, take the end timestamp, append the
latency sample. -/
def iterEvents (d : Dir) (f : TestFile) : List Event :=
  [Event.alloc, Event.timerStart, Event.submit d f, Event.wait,
   Event.timerEnd, Event.record d]

/-- The write loop for one size: per iteration `i` it computes the test file,
appends it to `test_files`, and performs one timed write.  Returns the
events and the accumulated `test_files` list. -/
def writePhase (size : Int) (iterations : Nat) : List Event × List TestFile :=
  (List.range iterations).foldl
    (fun acc i =>
      (acc.1 ++ iterEvents Dir.write (TestFile.mk size i),
       acc.2 ++ [TestFile.mk size i]))
    ([], [])

/-- The read loop for one size: per iteration `i` it performs one timed read
of `test_files[i]`. -/
def readPhase (test_files : List TestFile) (iterations : Nat) : List Event :=
  ((List.range iterations).map
    (fun i => iterEvents Dir.read (test_files.getD i (TestFile.mk 0 0)))).flatten

/-- The per-size body of `benchmark`: write loop, read loop, then unlink
every file in `test_files`. -/
def sizeEvents (size : Int) (iterations : Nat) : List Event :=
  let wp := writePhase size iterations
  wp.1 ++ readPhase wp.2 iterations ++ wp.2.map Event.unlink

/-- The full trace of `benchmark`: create the NVMe directory, then process
each size in order. -/
def benchmarkEvents (tensor_sizes : List Int) (iterations : Nat) : List Event :=
  Event.mkdir :: (tensor_sizes.map (fun s => sizeEvents s iterations)).flatten

/-! ## Trace predicates -/

/-- In-flight operation count transition: a submit adds one outstanding
operation; `wait()` blocks until all outstanding operations complete. -/
def inflightStep (c : Nat) (e : Event) : Nat :=
  match e with
  | Event.submit _ _ => c + 1
  | Event.wait => 0
  | _ => c

/-- Starting from `c` in-flight operations, the in-flight count stays `≤ d`
throughout the trace. -/
def inflightBelow (d : Nat) : Nat → List Event → Bool
  | _, [] => true
  | c, e :: es =>
      (match e with
       | Event.submit _ _ => decide (c + 1 ≤ d)
       | _ => true)
      && inflightBelow d (inflightStep c e) es

/-- Every submit is immediately followed by a `wait()` (no second submission
before the wait). -/
def submitThenWait : List Event → Bool
  | [] => true
  | Event.submit _ _ :: es =>
      match es with
      | Event.wait :: es2 => submitThenWait es2
      | _ => false
  | _ :: es => submitThenWait es

/-- Every start timestamp is followed by exactly a submit and a wait before
the matching end timestamp: the timestamps bracket the submit+wait pair and
nothing else is timed. -/
def timedPairsOK : List Event → Bool
  | [] => true
  | Event.timerStart :: es =>
      match es with
      | Event.submit _ _ :: Event.wait :: Event.timerEnd :: es2 => timedPairsOK es2
      | _ => false
  | _ :: es => timedPairsOK es

/-- The submissions of a trace, in order, with direction and target file. -/
def submitsOf (es : List Event) : List (Dir × TestFile) :=
  es.filterMap (fun e =>
    match e with
    | Event.submit d f => some (d, f)
    | _ => none)

/-! ## Filesystem model -/

/-- Filesystem state: whether the NVMe directory exists and which test files
exist. -/
structure FS where
  dirExists : Bool
  files : List TestFile

/-- Effect of one event on the filesystem: `mkdir` creates the directory
(`exist_ok`), a write submission creates its target file, `unlink` removes
the file (`missing_ok`: removing an absent file is a no-op). -/
def applyEvent (fs : FS) : Event → FS
  | Event.mkdir => { fs with dirExists := true }
  | Event.submit Dir.write f => { fs with files := f :: fs.files }
  | Event.unlink f => { fs with files := fs.files.filter (fun g => !(decide (g = f))) }
  | _ => fs

/-- Run a trace against a filesystem state. -/
def runFS (fs : FS) (es : List Event) : FS := es.foldl applyEvent fs

/-! ## Engine construction (`get_aio_handle`) and `main` -/

/-- `n` is a power of two (decidably: some exponent below `n + 1` works,
which suffices since `k < 2 ^ k`). -/
def isPow2Nat (n : Nat) : Bool :=
  (List.range (n + 1)).any (fun k => n == 2 ^ k)

/-- `block_size` is a positive power of two. -/
def isPosPow2 (n : Int) : Bool := decide (0 < n) && isPow2Nat n.toNat

/-- Spec-level error taxonomy for engine construction. -/
inductive EngineError
  | engineInitError (msg : String)
  | externalError (msg : String)
deriving Repr, DecidableEq

/-- Message carried by an engine construction error. -/
def engineErrorMsg : EngineError → String
  | EngineError.engineInitError m => m
  | EngineError.externalError m => m

/-- Python exceptions surfaced by the script. -/
inductive PyError
  | valueError (msg : String)
  | runtimeError (msg : String)
deriving Repr, DecidableEq

/-- Modelled from the spec: the async engine's constructor
`open(block_size, queue_depth, num_threads, direct_io)` is not part of this
repository (the engine is the external DeepSpeed AsyncIO op), so it is
modelled from the spec's external-interface contract: it fails with
`EngineInitError` if `block_size` is not a positive power of two, or if
direct I/O is requested but the filesystem does not support it.  `ext`
models any other failure of loading/constructing the external op. -/
def engineOpen (ext : Option String) (block_size : Int)
    (queue_depth num_threads : Nat) (direct_io fs_supports_direct : Bool) :
    Except EngineError Unit :=
  match ext with
  | some m => Except.error (EngineError.externalError m)
  | none =>
    if !isPosPow2 block_size then
      Except.error (EngineError.engineInitError "block_size must be a positive power of two")
    else if direct_io && !fs_supports_direct then
      Except.error (EngineError.engineInitError "filesystem does not support direct I/O")
    else Except.ok ()

/-- `get_aio_handle` from `benchmark.py`: construct the AIO handle, and
re-raise any exception as
`RuntimeError(f"Failed to initialize AIO handle: ...")`.  The source call
`aio_op.aio_handle(block_size, queue_depth, False, True, threads)` does not
request direct I/O, so the engine is opened with `direct_io = false` (and
the filesystem-support flag is irrelevant). -/
def get_aio_handle (ext : Option String) (block_size : Int)
    (queue_depth threads : Nat) : Except PyError Unit :=
  match engineOpen ext block_size queue_depth threads false true with
  | Except.ok u => Except.ok u
  | Except.error e =>
      Except.error (PyError.runtimeError
        ("Failed to initialize AIO handle: " ++ engineErrorMsg e))

/-- Result of `shutil.rmtree(nvme_path)` in the modelled environment. -/
inductive RmResult
  | ok
  | fileNotFound
  | otherError (msg : String)
deriving Repr, DecidableEq

/-- The parts of `main`'s environment the script observes: the parent
directory checks, the outcome of `shutil.rmtree`, and the external engine's
load failure (if any). -/
structure Env where
  parentExists : Bool
  parentWritable : Bool
  rmtree : RmResult
  engineExt : Option String

/-- `main` from `benchmark.py`: parse the size arguments and the block size
(wrapping parse failures in `ValueError("Invalid size format: ...")`);
check the parent directory exists and is writable; clean the NVMe
directory with `shutil.rmtree` (a missing directory is silently tolerated,
any other failure becomes `RuntimeError("Failed to clean NVMe directory:
...")`); construct the AIO handle; run the benchmark.  The result is the
trace of externally visible events (the `rmtree` deletion, when it
happened, followed by the benchmark trace). -/
def mainRun (env : Env) (sizesArgs : List (List Char)) (blockArg : List Char)
    (iterations queue_depth threads : Nat) : Except PyError (List Event) :=
  match sizesArgs.mapM parse_size with
  | Except.error m => Except.error (PyError.valueError ("Invalid size format: " ++ m))
  | Except.ok tensor_sizes =>
    match parse_size blockArg with
    | Except.error m => Except.error (PyError.valueError ("Invalid size format: " ++ m))
    | Except.ok block_size =>
      if !(env.parentExists && env.parentWritable) then
        Except.error (PyError.valueError
          "Parent of NVMe path must exist and be writable.")
      else
        match env.rmtree with
        | RmResult.otherError m =>
            Except.error (PyError.runtimeError ("Failed to clean NVMe directory: " ++ m))
        | r =>
          match get_aio_handle env.engineExt block_size queue_depth threads with
          | Except.error e => Except.error e
          | Except.ok _ =>
              Except.ok
                ((if r = RmResult.ok then [Event.rmtree] else [])
                  ++ benchmarkEvents tensor_sizes iterations)

/-! ## Character and list helper lemmas -/

theorem isDig_toNat {c : Char} (h : isDig c = true) : 48 ≤ c.toNat ∧ c.toNat ≤ 57 := by
  simpa [isDig] using h

theorem pyUpper_of_isDig {c : Char} (h : isDig c = true) : pyUpper c = c := by
  have hb := isDig_toNat h
  rw [pyUpper, if_neg]
  simp only [Bool.and_eq_true, decide_eq_true_eq, not_and]
  omega

theorem isWS_of_isDig {c : Char} (h : isDig c = true) : isWS c = false := by
  have hb := isDig_toNat h
  simp only [isWS, Bool.or_eq_false_iff, decide_eq_false_iff_not]
  refine ⟨⟨⟨⟨⟨?_, ?_⟩, ?_⟩, ?_⟩, ?_⟩, ?_⟩ <;>
    first
      | omega
      | (rintro rfl; exact absurd h (by decide))

theorem ne_of_isDig {c : Char} (h : isDig c = true) :
    c ≠ '+' ∧ c ≠ '-' ∧ c ≠ '.' ∧ c ≠ 'K' ∧ c ≠ 'M' ∧ c ≠ 'G' := by
  refine ⟨?_, ?_, ?_, ?_, ?_, ?_⟩ <;>
    (rintro rfl; exact absurd h (by decide))

theorem pyUpper_of_isWS {c : Char} (h : isWS c = true) : pyUpper c = c := by
  simp only [isWS, Bool.or_eq_true, decide_eq_true_eq] at h
  rcases h with ((((h | h) | h) | h) | h) | h <;>
    first
      | (subst h; decide)
      | (rw [pyUpper, if_neg]
         simp only [Bool.and_eq_true, decide_eq_true_eq, not_and]
         omega)

theorem dropWhile_append_of_all {α : Type} {p : α → Bool} {l : List α} (r : List α)
    (h : l.all p = true) : (l ++ r).dropWhile p = r.dropWhile p := by
  induction l with
  | nil => rfl
  | cons a t ih =>
    simp only [List.all_cons, Bool.and_eq_true] at h
    simp [List.dropWhile_cons, h.1, ih h.2]

theorem takeWhile_of_all {α : Type} {p : α → Bool} {l : List α}
    (h : l.all p = true) : l.takeWhile p = l := by
  induction l with
  | nil => rfl
  | cons a t ih =>
    simp only [List.all_cons, Bool.and_eq_true] at h
    simp [List.takeWhile_cons, h.1, ih h.2]

theorem dropWhile_of_all {α : Type} {p : α → Bool} {l : List α}
    (h : l.all p = true) : l.dropWhile p = [] := by
  induction l with
  | nil => rfl
  | cons a t ih =>
    simp only [List.all_cons, Bool.and_eq_true] at h
    simp [List.dropWhile_cons, h.1, ih h.2]

theorem takeWhile_append_cons {α : Type} {p : α → Bool} {l : List α} {a : α} (r : List α)
    (h : l.all p = true) (ha : p a = false) : (l ++ a :: r).takeWhile p = l := by
  induction l with
  | nil => simp [List.takeWhile_cons, ha]
  | cons b t ih =>
    simp only [List.all_cons, Bool.and_eq_true] at h
    simp [List.takeWhile_cons, h.1, ih h.2]

theorem dropWhile_append_cons {α : Type} {p : α → Bool} {l : List α} {a : α} (r : List α)
    (h : l.all p = true) (ha : p a = false) : (l ++ a :: r).dropWhile p = a :: r := by
  rw [dropWhile_append_of_all _ h]
  simp [List.dropWhile_cons, ha]

theorem dropWhile_of_head {α : Type} {p : α → Bool} {l : List α}
    (h : ∀ c, l.head? = some c → p c = false) : l.dropWhile p = l := by
  cases l with
  | nil => rfl
  | cons a t => simp [List.dropWhile_cons, h a rfl]

theorem getLast?_of_all {α : Type} {p : α → Bool} {l : List α} (hne : l ≠ [])
    (h : l.all p = true) : ∃ c, l.getLast? = some c ∧ p c = true := by
  induction l with
  | nil => exact absurd rfl hne
  | cons a t ih =>
    simp only [List.all_cons, Bool.and_eq_true] at h
    cases t with
    | nil => exact ⟨a, rfl, h.1⟩
    | cons b u =>
      obtain ⟨c, hc, hpc⟩ := ih (by simp) h.2
      exact ⟨c, by rw [List.getLast?_cons_cons]; exact hc, hpc⟩

theorem map_fix_of_all {α : Type} {f : α → α} {l : List α}
    (h : ∀ c ∈ l, f c = c) : l.map f = l :=
  (List.map_congr_left h).trans (List.map_id l)

theorem pyStrip_sandwich {w1 w2 m : List Char} (h1 : w1.all isWS = true)
    (h2 : w2.all isWS = true)
    (hh : ∀ c, m.head? = some c → isWS c = false)
    (hl : ∀ c, m.getLast? = some c → isWS c = false) :
    pyStrip (w1 ++ m ++ w2) = m := by
  cases m with
  | nil =>
    have hall : (w1 ++ ([] : List Char) ++ w2).all isWS = true := by
      simp [List.all_append, h1, h2]
    unfold pyStrip
    rw [dropWhile_of_all hall]
    rfl
  | cons d t =>
    have hd : isWS d = false := hh d rfl
    unfold pyStrip
    have e1 : List.dropWhile isWS (w1 ++ (d :: t) ++ w2) = (d :: t) ++ w2 := by
      rw [List.append_assoc, dropWhile_append_of_all _ h1]
      exact dropWhile_of_head (by
        intro c hc
        simp only [List.cons_append, List.head?_cons, Option.some.injEq] at hc
        subst hc; exact hd)
    rw [e1, List.reverse_append, dropWhile_append_of_all _ (by rw [List.all_reverse]; exact h2)]
    have e2 : List.dropWhile isWS (d :: t).reverse = (d :: t).reverse :=
      dropWhile_of_head (by
        intro c hc
        rw [List.head?_reverse] at hc
        exact hl c hc)
    rw [e2, List.reverse_reverse]

/-! ## Numeric-literal parsing lemmas -/

theorem pySign_no_sign {l : List Char}
    (h : ∀ c, l.head? = some c → c ≠ '+' ∧ c ≠ '-') : pySign l = (1, l) := by
  cases l with
  | nil => rfl
  | cons a t =>
    obtain ⟨h1, h2⟩ := h a rfl
    simp [pySign, h1, h2]

theorem pyIntSign_no_sign {l : List Char}
    (h : ∀ c, l.head? = some c → c ≠ '+' ∧ c ≠ '-') : pyIntSign l = (1, l) := by
  cases l with
  | nil => rfl
  | cons a t =>
    obtain ⟨h1, h2⟩ := h a rfl
    simp [pyIntSign, h1, h2]

theorem head_digits_no_sign {ds : List Char} (hd : ds.all isDig = true) :
    ∀ c, ds.head? = some c → c ≠ '+' ∧ c ≠ '-' := by
  intro c hc
  cases ds with
  | nil => exact absurd hc (by simp)
  | cons a t =>
    simp only [List.head?_cons, Option.some.injEq] at hc
    subst hc
    simp only [List.all_cons, Bool.and_eq_true] at hd
    obtain ⟨n1, n2, -⟩ := ne_of_isDig hd.1
    exact ⟨n1, n2⟩

theorem head_digits_append_no_sign {ds r : List Char} (hd : ds.all isDig = true)
    (hne : ds ≠ []) : ∀ c, (ds ++ r).head? = some c → c ≠ '+' ∧ c ≠ '-' := by
  intro c hc
  cases ds with
  | nil => exact absurd rfl hne
  | cons a t =>
    simp only [List.cons_append, List.head?_cons, Option.some.injEq] at hc
    subst hc
    simp only [List.all_cons, Bool.and_eq_true] at hd
    obtain ⟨n1, n2, -⟩ := ne_of_isDig hd.1
    exact ⟨n1, n2⟩

theorem pyFloat_digits {ds : List Char} (hd : ds.all isDig = true) (hne : ds ≠ []) :
    pyFloat ds = some ((digitsVal ds : ℚ)) := by
  unfold pyFloat
  rw [pySign_no_sign (head_digits_no_sign hd)]
  simp [takeWhile_of_all hd, dropWhile_of_all hd, hne]

theorem pyFloat_frac {ds fs : List Char} (hd : ds.all isDig = true) (hne : ds ≠ [])
    (hf : fs.all isDig = true) :
    pyFloat (ds ++ '.' :: fs)
      = some ((digitsVal ds : ℚ) + (digitsVal fs : ℚ) / 10 ^ fs.length) := by
  unfold pyFloat
  rw [pySign_no_sign (head_digits_append_no_sign hd hne)]
  dsimp only
  rw [takeWhile_append_cons _ hd (by decide), dropWhile_append_cons _ hd (by decide)]
  simp [hne, hf]

theorem pyInt_digits {ds : List Char} (hd : ds.all isDig = true) (hne : ds ≠ []) :
    pyInt ds = some ((digitsVal ds : Int)) := by
  unfold pyInt
  rw [pyIntSign_no_sign (head_digits_no_sign hd)]
  simp [hne, hd]

theorem pyUpper_fix_digits {ds : List Char} (hd : ds.all isDig = true) :
    ds.map pyUpper = ds := by
  refine map_fix_of_all ?_
  intro c hc
  exact pyUpper_of_isDig (by
    rw [List.all_eq_true] at hd
    exact hd c hc)

theorem pyUpper_fix_ws {w : List Char} (hw : w.all isWS = true) :
    w.map pyUpper = w := by
  refine map_fix_of_all ?_
  intro c hc
  exact pyUpper_of_isWS (by
    rw [List.all_eq_true] at hw
    exact hw c hc)

theorem head_not_ws_of_digits {ds r : List Char} (hd : ds.all isDig = true)
    (hne : ds ≠ []) : ∀ c, (ds ++ r).head? = some c → isWS c = false := by
  intro c hc
  cases ds with
  | nil => exact absurd rfl hne
  | cons a t =>
    simp only [List.cons_append, List.head?_cons, Option.some.injEq] at hc
    subst hc
    simp only [List.all_cons, Bool.and_eq_true] at hd
    exact isWS_of_isDig hd.1

/-! ## `parse_size` evaluation lemmas -/

theorem parse_size_of_strip_plain {l ds : List Char}
    (hstrip : pyStrip (l.map pyUpper) = ds)
    (hd : ds.all isDig = true) (hne : ds ≠ []) :
    parse_size l = Except.ok ((digitsVal ds : Int)) := by
  obtain ⟨lc, hlc, hdig⟩ := getLast?_of_all hne hd
  obtain ⟨-, -, -, nK, nM, nG⟩ := ne_of_isDig hdig
  unfold parse_size
  rw [hstrip]
  dsimp only
  rw [if_neg (by simp [hlc, nK]), if_neg (by simp [hlc, nM]),
      if_neg (by simp [hlc, nG]), pyInt_digits hd hne]

theorem parse_size_of_strip_suffix {l pre : List Char} {S : Char} {q : ℚ}
    (hstrip : pyStrip (l.map pyUpper) = pre ++ [S])
    (hS : S = 'K' ∨ S = 'M' ∨ S = 'G')
    (hq : pyFloat pre = some q) :
    parse_size l = Except.ok (pyTrunc (q * suffixMult S)) := by
  unfold parse_size
  rw [hstrip]
  dsimp only
  rcases hS with rfl | rfl | rfl
  · rw [if_pos (by rw [List.getLast?_concat]), List.dropLast_concat, hq]
    rfl
  · rw [if_neg (by simp [List.getLast?_concat]), if_pos (by rw [List.getLast?_concat]),
        List.dropLast_concat, hq]
    have : suffixMult 'M' = 1024 * 1024 := rfl
    rw [this, ← mul_assoc]
  · rw [if_neg (by simp [List.getLast?_concat]), if_neg (by simp [List.getLast?_concat]),
        if_pos (by rw [List.getLast?_concat]), List.dropLast_concat, hq]
    have : suffixMult 'G' = 1024 * 1024 * 1024 := rfl
    rw [this, ← mul_assoc, ← mul_assoc]

/-- C9: for every input string that, after trimming surrounding whitespace
and uppercasing, consists of a numeric prefix followed by an optional
case-insensitive suffix `K`, `M` or `G`, `parse_size` returns the integer
part of the prefix multiplied by 1024, 1024^2 or 1024^3 respectively, and
the plain integer value when no suffix is present.  The prefix is an
arbitrary digit string `ds` (with an optional fractional part `.fs` in the
suffixed cases), surrounded by arbitrary whitespace `w1`/`w2`; the suffix
`c` is any character that uppercases to `K`, `M` or `G`. -/
theorem c9_parse_size (w1 w2 ds fs : List Char) (c : Char)
    (h1 : w1.all isWS = true) (h2 : w2.all isWS = true)
    (hd : ds.all isDig = true) (hne : ds ≠ [])
    (hf : fs.all isDig = true)
    (hc : pyUpper c = 'K' ∨ pyUpper c = 'M' ∨ pyUpper c = 'G') :
    parse_size (w1 ++ ds ++ w2) = Except.ok ((digitsVal ds : Int)) ∧
    parse_size (w1 ++ ds ++ [c] ++ w2)
      = Except.ok (pyTrunc ((digitsVal ds : ℚ) * suffixMult (pyUpper c))) ∧
    parse_size (w1 ++ (ds ++ '.' :: fs) ++ [c] ++ w2)
      = Except.ok (pyTrunc (((digitsVal ds : ℚ) + (digitsVal fs : ℚ) / 10 ^ fs.length)
          * suffixMult (pyUpper c))) := by
  have hWSsuf : isWS (pyUpper c) = false := by
    rcases hc with h | h | h <;> rw [h] <;> decide
  have hHead : ∀ x, ds.head? = some x → isWS x = false := by
    intro x hx
    cases ds with
    | nil => exact absurd hx (by simp)
    | cons a t =>
      simp only [List.head?_cons, Option.some.injEq] at hx
      subst hx
      simp only [List.all_cons, Bool.and_eq_true] at hd
      exact isWS_of_isDig hd.1
  refine ⟨?_, ?_, ?_⟩
  · refine parse_size_of_strip_plain ?_ hd hne
    have hmap : (w1 ++ ds ++ w2).map pyUpper = w1 ++ ds ++ w2 := by
      simp [List.map_append, pyUpper_fix_ws h1, pyUpper_fix_ws h2, pyUpper_fix_digits hd]
    rw [hmap]
    refine pyStrip_sandwich h1 h2 hHead ?_
    intro x hx
    obtain ⟨lc, hlc, hdig⟩ := getLast?_of_all hne hd
    rw [hlc, Option.some.injEq] at hx
    subst hx
    exact isWS_of_isDig hdig
  · refine parse_size_of_strip_suffix ?_ hc (pyFloat_digits hd hne)
    have hmap : (w1 ++ ds ++ [c] ++ w2).map pyUpper
        = w1 ++ (ds ++ [pyUpper c]) ++ w2 := by
      simp [List.map_append, pyUpper_fix_ws h1, pyUpper_fix_ws h2, pyUpper_fix_digits hd,
            List.append_assoc]
    rw [hmap]
    refine pyStrip_sandwich h1 h2 (head_not_ws_of_digits hd hne) ?_
    intro x hx
    rw [List.getLast?_concat, Option.some.injEq] at hx
    subst hx
    exact hWSsuf
  · refine parse_size_of_strip_suffix ?_ hc (pyFloat_frac hd hne hf)
    have hmap : (w1 ++ (ds ++ '.' :: fs) ++ [c] ++ w2).map pyUpper
        = w1 ++ ((ds ++ '.' :: fs) ++ [pyUpper c]) ++ w2 := by
      simp [List.map_append, pyUpper_fix_ws h1, pyUpper_fix_ws h2, pyUpper_fix_digits hd,
            pyUpper_fix_digits hf, List.append_assoc,
            show pyUpper '.' = '.' from rfl]
    rw [hmap]
    refine pyStrip_sandwich h1 h2 ?_ ?_
    · intro x hx
      rw [List.append_assoc] at hx
      exact head_not_ws_of_digits hd hne x hx
    · intro x hx
      rw [List.getLast?_concat, Option.some.injEq] at hx
      subst hx
      exact hWSsuf

/-- Witness for C9 at the concrete inputs `" 2"`, `" 2m"` and `" 2.5m"`:
`parse_size " 2" = 2`, `parse_size " 2m" = 2097152` and
`parse_size " 2.5m" = 2621440`. -/
theorem c9_parse_size_witness :
    parse_size ([' '] ++ ['2'] ++ []) = Except.ok 2 ∧
    parse_size ([' '] ++ ['2'] ++ ['m'] ++ []) = Except.ok 2097152 ∧
    parse_size ([' '] ++ (['2'] ++ '.' :: ['5']) ++ ['m'] ++ []) = Except.ok 2621440 := by
  obtain ⟨e1, e2, e3⟩ :=
    c9_parse_size [' '] [] ['2'] ['5'] 'm' (by decide) (by decide) (by decide)
      (by decide) (by decide) (Or.inr (Or.inl (by decide)))
  have h2 : digitsVal ['2'] = 2 := rfl
  have h5 : digitsVal ['5'] = 5 := rfl
  have hup : pyUpper 'm' = 'M' := by decide
  have hsm : suffixMult 'M' = 1024 * 1024 := by simp [suffixMult]
  refine ⟨e1.trans (congrArg Except.ok ?_), e2.trans (congrArg Except.ok ?_),
    e3.trans (congrArg Except.ok ?_)⟩
  · rw [h2]
    norm_num
  · rw [pyTrunc, h2, hup, hsm]
    norm_num
  · rw [pyTrunc, h2, h5, hup, hsm]
    norm_num

/-- C1: for every non-empty list of positive latency samples and every
positive transfer size, `calculate_statistics` returns, for both latency
and bandwidth, a record containing the mean, median, standard deviation,
95% confidence interval, and 50th/90th/99th percentiles of the samples
(`specStats`), where the bandwidth samples are exactly
`size_bytes / latency / 1e6` (MB/s) for each latency. -/
theorem c1_calculate_statistics (sqrt : ℚ → ℚ) (tppf : ℕ → ℚ)
    (latencies : List ℚ) (size_bytes : ℚ)
    (hne : latencies ≠ []) (hpos : ∀ l ∈ latencies, 0 < l)
    (hsize : 0 < size_bytes) :
    calculate_statistics sqrt tppf latencies size_bytes
      = Except.ok
          { latency := specStats sqrt tppf latencies
            bandwidth_mb_s :=
              specStats sqrt tppf
                (latencies.map (fun lat => size_bytes / lat / 1000000)) } := by
  have hfilter : latencies.filter (fun lat => decide (0 < lat)) = latencies :=
    List.filter_eq_self.mpr (fun a ha => decide_eq_true (hpos a ha))
  unfold calculate_statistics
  rw [if_neg (fun h => hne (by simpa using h))]
  dsimp only
  rw [hfilter, List.length_map, if_neg (by simp)]
  simp [specStats, List.length_map]

/-- Witness for C1 at `latencies = [1, 2]`, `size_bytes = 10`, with the
abstract square root instantiated as the identity and the t-quantile as the
zero function. -/
theorem c1_calculate_statistics_witness :
    calculate_statistics id (fun _ => 0) [1, 2] 10
      = Except.ok
          { latency := specStats id (fun _ => 0) [1, 2]
            bandwidth_mb_s :=
              specStats id (fun _ => 0)
                (([1, 2] : List ℚ).map (fun lat => 10 / lat / 1000000)) } :=
  c1_calculate_statistics id (fun _ => 0) [1, 2] 10 (List.cons_ne_nil 1 [2])
    (by
      intro l hl
      rcases List.mem_cons.mp hl with rfl | hl
      · norm_num
      · rcases List.mem_singleton.mp hl with rfl
        norm_num)
    (by norm_num)

/-- C8: `calculate_statistics` raises `ValueError` if and only if the
latency list is empty or contains a latency that is not strictly positive;
otherwise it returns normally. -/
theorem c8_calculate_statistics_valueerror (sqrt : ℚ → ℚ) (tppf : ℕ → ℚ)
    (latencies : List ℚ) (size_bytes : ℚ) :
    exceptIsError (calculate_statistics sqrt tppf latencies size_bytes) = true
      ↔ (latencies = [] ∨ ∃ l ∈ latencies, l ≤ 0) := by
  unfold calculate_statistics
  by_cases hemp : latencies = []
  · subst hemp
    simp [exceptIsError]
  · rw [if_neg (fun h => hemp (by simpa using h))]
    dsimp only
    by_cases hall : ∀ l ∈ latencies, 0 < l
    · have hfilter : latencies.filter (fun lat => decide (0 < lat)) = latencies :=
        List.filter_eq_self.mpr (fun a ha => decide_eq_true (hall a ha))
      rw [hfilter, List.length_map, if_neg (by simp)]
      simp only [exceptIsError]
      constructor
      · intro h
        exact absurd h (by simp)
      · rintro (rfl | ⟨l, hl, hle⟩)
        · exact absurd rfl hemp
        · exact absurd (hall l hl) (not_lt.mpr hle)
    · have hlen : (latencies.filter (fun lat => decide (0 < lat))).length
          ≠ latencies.length := by
        intro h
        exact hall (fun l hl => by
          have := List.filter_length_eq_length.mp h l hl
          simpa using this)
      rw [List.length_map, if_pos hlen]
      simp only [exceptIsError, true_iff]
      right
      push_neg at hall
      obtain ⟨l, hl, hle⟩ := hall
      exact ⟨l, hl, hle⟩

/-! ## Engine construction claims -/

theorem isPosPow2_spec (n : Int) :
    isPosPow2 n = true ↔ (0 < n ∧ ∃ k : ℕ, n = 2 ^ k) := by
  unfold isPosPow2 isPow2Nat
  rw [Bool.and_eq_true, decide_eq_true_eq, List.any_eq_true]
  constructor
  · rintro ⟨hpos, k, -, hbeq⟩
    rw [beq_iff_eq] at hbeq
    refine ⟨hpos, k, ?_⟩
    have hcast : ((n.toNat : ℤ)) = n := Int.toNat_of_nonneg (le_of_lt hpos)
    rw [← hcast, hbeq]
    push_cast
    ring
  · rintro ⟨hpos, k, rfl⟩
    have htn : ((2 : ℤ) ^ k).toNat = 2 ^ k := by
      rw [show ((2 : ℤ) ^ k) = ((2 ^ k : ℕ) : ℤ) by push_cast; ring, Int.toNat_natCast]
    refine ⟨hpos, k, ?_, ?_⟩
    · rw [List.mem_range, htn]
      exact Nat.lt_succ_of_le (Nat.le_of_lt (Nat.lt_two_pow k))
    · rw [htn]
      exact beq_self_eq_true (2 ^ k)

/-- C5: modelled from the spec (the engine itself is external): whenever
`block_size` is not a positive power of two, engine construction fails with
`EngineInitError`, and `get_aio_handle` therefore raises (a `RuntimeError`)
rather than returning a handle. -/
theorem c5_block_size_pow2 (block_size : Int) (queue_depth threads : Nat)
    (h : ¬(0 < block_size ∧ ∃ k : ℕ, block_size = 2 ^ k)) :
    engineOpen none block_size queue_depth threads false true
      = Except.error
          (EngineError.engineInitError "block_size must be a positive power of two") ∧
    get_aio_handle none block_size queue_depth threads
      = Except.error (PyError.runtimeError
          "Failed to initialize AIO handle: block_size must be a positive power of two") := by
  have hb : isPosPow2 block_size = false := by
    rw [Bool.eq_false_iff]
    intro ht
    exact h ((isPosPow2_spec block_size).mp ht)
  constructor
  · simp [engineOpen, hb]
  · simp [get_aio_handle, engineOpen, hb, engineErrorMsg]

/-- Witness for C5 at `block_size = 3` (not a power of two). -/
theorem c5_block_size_pow2_witness :
    engineOpen none 3 64 16 false true
      = Except.error
          (EngineError.engineInitError "block_size must be a positive power of two") ∧
    get_aio_handle none 3 64 16
      = Except.error (PyError.runtimeError
          "Failed to initialize AIO handle: block_size must be a positive power of two") :=
  c5_block_size_pow2 3 64 16
    (fun hh => absurd ((isPosPow2_spec 3).mpr hh) (by decide))

/-- C6: construction errors are fatal and reported immediately: any failure
of engine initialization is re-raised by `get_aio_handle` as a
`RuntimeError`, and a successful `mainRun` (the only way any benchmark I/O
is produced) implies engine construction succeeded, so the engine never
starts in a partially constructed state. -/
theorem c6_construction_errors_fatal :
    (∀ (ext : Option String) (block_size : Int) (queue_depth threads : Nat),
        (∃ e, engineOpen ext block_size queue_depth threads false true
            = Except.error e) →
        ∃ m, get_aio_handle ext block_size queue_depth threads
            = Except.error (PyError.runtimeError m)) ∧
    (∀ (env : Env) (sizesArgs : List (List Char)) (blockArg : List Char)
        (iterations queue_depth threads : Nat) (trace : List Event),
        mainRun env sizesArgs blockArg iterations queue_depth threads
            = Except.ok trace →
        ∃ block_size, parse_size blockArg = Except.ok block_size ∧
          get_aio_handle env.engineExt block_size queue_depth threads
            = Except.ok ()) := by
  constructor
  · rintro ext bs qd th ⟨e, he⟩
    refine ⟨"Failed to initialize AIO handle: " ++ engineErrorMsg e, ?_⟩
    unfold get_aio_handle
    rw [he]
  · intro env sa ba it qd th tr h
    unfold mainRun at h
    cases hsa : sa.mapM parse_size with
    | error m => rw [hsa] at h; exact absurd h (by simp)
    | ok ts =>
      rw [hsa] at h
      dsimp only at h
      cases hba : parse_size ba with
      | error m => rw [hba] at h; exact absurd h (by simp)
      | ok bs =>
        rw [hba] at h
        dsimp only at h
        refine ⟨bs, rfl, ?_⟩
        by_cases hp : (env.parentExists && env.parentWritable) = true
        · rw [if_neg (by simp [hp])] at h
          cases hr : env.rmtree with
          | otherError m => rw [hr] at h; exact absurd h (by simp)
          | ok =>
            rw [hr] at h
            dsimp only at h
            cases hg : get_aio_handle env.engineExt bs qd th with
            | error e => rw [hg] at h; exact absurd h (by simp)
            | ok u => cases u; rfl
          | fileNotFound =>
            rw [hr] at h
            dsimp only at h
            cases hg : get_aio_handle env.engineExt bs qd th with
            | error e => rw [hg] at h; exact absurd h (by simp)
            | ok u => cases u; rfl
        · rw [if_pos (by rw [Bool.not_eq_true']; exact Bool.eq_false_iff.mpr hp)] at h
          exact absurd h (by simp)

/-- Witness for C6: a failing external load at `block_size = 4096` is
re-raised as a `RuntimeError`. -/
theorem c6_construction_errors_fatal_witness :
    ∃ m, get_aio_handle (some "load failed") 4096 64 16
      = Except.error (PyError.runtimeError m) :=
  c6_construction_errors_fatal.1 (some "load failed") 4096 64 16
    ⟨EngineError.externalError "load failed", rfl⟩

/-- C10: before any benchmark I/O, `main` recursively deletes the directory
tree at the resolved NVMe path: (1) any `rmtree` failure other than
`FileNotFoundError` becomes a `RuntimeError` that aborts the run whatever
the engine would have done (so the engine is never constructed); (2) a
missing directory is tolerated silently and the run proceeds; (3) on
successful deletion the produced trace starts with the `rmtree` deletion,
before every benchmark event. -/
theorem c10_main_rmtree (env : Env) (sizesArgs : List (List Char))
    (blockArg : List Char) (iterations queue_depth threads : Nat)
    (ts : List Int) (bs : Int)
    (hts : sizesArgs.mapM parse_size = Except.ok ts)
    (hbs : parse_size blockArg = Except.ok bs)
    (hp : env.parentExists = true) (hw : env.parentWritable = true) :
    (∀ m, env.rmtree = RmResult.otherError m →
        ∀ ext, mainRun { env with engineExt := ext } sizesArgs blockArg
            iterations queue_depth threads
          = Except.error
              (PyError.runtimeError ("Failed to clean NVMe directory: " ++ m))) ∧
    (env.rmtree = RmResult.fileNotFound →
        get_aio_handle env.engineExt bs queue_depth threads = Except.ok () →
        mainRun env sizesArgs blockArg iterations queue_depth threads
          = Except.ok (benchmarkEvents ts iterations)) ∧
    (env.rmtree = RmResult.ok →
        get_aio_handle env.engineExt bs queue_depth threads = Except.ok () →
        mainRun env sizesArgs blockArg iterations queue_depth threads
          = Except.ok (Event.rmtree :: benchmarkEvents ts iterations)) := by
  refine ⟨?_, ?_, ?_⟩
  · intro m hm ext
    unfold mainRun
    rw [hts, hbs]
    dsimp only
    rw [if_neg (by simp [hp, hw]), hm]
  · intro hr hg
    unfold mainRun
    rw [hts, hbs]
    dsimp only
    rw [if_neg (by simp [hp, hw]), hr]
    dsimp only
    rw [hg]
    simp
  · intro hr hg
    unfold mainRun
    rw [hts, hbs]
    dsimp only
    rw [if_neg (by simp [hp, hw]), hr]
    dsimp only
    rw [hg]
    simp

/-- Witness for C10: with a successfully cleaned directory and a working
engine, the run's trace starts with the deletion. -/
theorem c10_main_rmtree_witness :
    mainRun ⟨true, true, RmResult.ok, none⟩ [['4']] ['4'] 2 64 16
      = Except.ok (Event.rmtree :: benchmarkEvents [4] 2) :=
  (c10_main_rmtree ⟨true, true, RmResult.ok, none⟩ [['4']] ['4'] 2 64 16 [4] 4
    rfl rfl rfl rfl).2.2 rfl rfl

/-! ## Trace structure lemmas -/

theorem writePhase_eq (size : Int) (n : Nat) :
    writePhase size n
      = (((List.range n).map (fun i => iterEvents Dir.write (TestFile.mk size i))).flatten,
         (List.range n).map (fun i => TestFile.mk size i)) := by
  induction n with
  | zero => rfl
  | succ m ih =>
    unfold writePhase at ih ⊢
    rw [List.range_succ, List.foldl_append, ih]
    simp [List.map_append, List.flatten_append]

theorem readPhase_eq (s : Int) (n : Nat) :
    readPhase ((List.range n).map (fun i => TestFile.mk s i)) n
      = ((List.range n).map (fun i => iterEvents Dir.read (TestFile.mk s i))).flatten := by
  unfold readPhase
  congr 1
  apply List.map_congr_left
  intro i hi
  rw [List.mem_range] at hi
  congr 1
  rw [List.getD_eq_getElem?_getD, List.getElem?_map, List.getElem?_range hi]
  rfl

theorem sizeEvents_eq (s : Int) (n : Nat) :
    sizeEvents s n
      = ((List.range n).map (fun i => iterEvents Dir.write (TestFile.mk s i))).flatten
        ++ ((List.range n).map (fun i => iterEvents Dir.read (TestFile.mk s i))).flatten
        ++ ((List.range n).map (fun i => TestFile.mk s i)).map Event.unlink := by
  unfold sizeEvents
  rw [writePhase_eq]
  dsimp only
  rw [readPhase_eq]

/-! ## C4: submission order and sample counts -/

theorem submitsOf_append (a b : List Event) :
    submitsOf (a ++ b) = submitsOf a ++ submitsOf b :=
  List.filterMap_append a b _

theorem submitsOf_flatten {α : Type} (dir : Dir) (g : α → TestFile) (l : List α) :
    submitsOf ((l.map (fun a => iterEvents dir (g a))).flatten)
      = l.map (fun a => (dir, g a)) := by
  induction l with
  | nil => rfl
  | cons a t ih =>
    rw [List.map_cons, List.flatten_cons, submitsOf_append, ih]
    rfl

theorem submitsOf_unlinks (fl : List TestFile) :
    submitsOf (fl.map Event.unlink) = [] := by
  induction fl with
  | nil => rfl
  | cons f t ih =>
    rw [List.map_cons]
    rw [show (Event.unlink f :: t.map Event.unlink)
          = [Event.unlink f] ++ t.map Event.unlink from rfl,
        submitsOf_append, ih]
    rfl

theorem countP_flatten {α : Type} (p : Event → Bool) (g : α → List Event)
    (k : α → Nat) (hk : ∀ a, (g a).countP p = k a) (l : List α) :
    ((l.map g).flatten).countP p = (l.map k).sum := by
  induction l with
  | nil => rfl
  | cons a t ih =>
    rw [List.map_cons, List.flatten_cons, List.countP_append, hk, ih, List.map_cons,
        List.sum_cons]

theorem sum_map_const {α : Type} (l : List α) (c : Nat) :
    (l.map (fun _ => c)).sum = l.length * c := by
  induction l with
  | nil => simp
  | cons a t ih => simp [ih, Nat.succ_mul, Nat.add_comm]

theorem countP_unlinks (p : Event → Bool) (hp : ∀ f, p (Event.unlink f) = false)
    (fl : List TestFile) : (fl.map Event.unlink).countP p = 0 := by
  induction fl with
  | nil => rfl
  | cons f t ih => simp [List.countP_cons, hp, ih]

/-- C4: for every size, the benchmark performs exactly `iterations` write
submissions followed by exactly `iterations` read submissions (all writes
before the first read), the `i`-th read targets exactly the file created by
the `i`-th write of that size, and exactly `iterations` write latency
samples and `iterations` read latency samples are recorded. -/
theorem c4_benchmark_order (size : Int) (iterations : Nat) :
    submitsOf (sizeEvents size iterations)
      = ((List.range iterations).map (fun i => (Dir.write, TestFile.mk size i)))
        ++ ((List.range iterations).map (fun i => (Dir.read, TestFile.mk size i))) ∧
    (sizeEvents size iterations).countP
        (fun e => decide (e = Event.record Dir.write)) = iterations ∧
    (sizeEvents size iterations).countP
        (fun e => decide (e = Event.record Dir.read)) = iterations := by
  rw [sizeEvents_eq]
  refine ⟨?_, ?_, ?_⟩
  · rw [submitsOf_append, submitsOf_append, submitsOf_unlinks, List.append_nil,
        submitsOf_flatten, submitsOf_flatten]
  · rw [List.countP_append, List.countP_append,
        countP_flatten (fun e => decide (e = Event.record Dir.write))
          (fun i => iterEvents Dir.write (TestFile.mk size i)) (fun _ => 1)
          (fun i => rfl),
        countP_flatten (fun e => decide (e = Event.record Dir.write))
          (fun i => iterEvents Dir.read (TestFile.mk size i)) (fun _ => 0)
          (fun i => rfl),
        countP_unlinks _ (fun f => by simp),
        sum_map_const, sum_map_const, List.length_range]
    simp
  · rw [List.countP_append, List.countP_append,
        countP_flatten (fun e => decide (e = Event.record Dir.read))
          (fun i => iterEvents Dir.write (TestFile.mk size i)) (fun _ => 0)
          (fun i => rfl),
        countP_flatten (fun e => decide (e = Event.record Dir.read))
          (fun i => iterEvents Dir.read (TestFile.mk size i)) (fun _ => 1)
          (fun i => rfl),
        countP_unlinks _ (fun f => by simp),
        sum_map_const, sum_map_const, List.length_range]
    simp

/-! ## C2/C3: submit-wait discipline and timer brackets -/

theorem inflightBelow_cons (d c : Nat) (e : Event) (es : List Event) :
    inflightBelow d c (e :: es)
      = ((match e with
          | Event.submit _ _ => decide (c + 1 ≤ d)
          | _ => true) && inflightBelow d (inflightStep c e) es) := rfl

theorem inflightBelow_append (d : Nat) (c : Nat) (a b : List Event) :
    inflightBelow d c (a ++ b)
      = (inflightBelow d c a && inflightBelow d (a.foldl inflightStep c) b) := by
  induction a generalizing c with
  | nil => simp [inflightBelow]
  | cons e t ih =>
    rw [List.cons_append, inflightBelow_cons, inflightBelow_cons, ih,
        List.foldl_cons, Bool.and_assoc]

theorem inflightBelow_iter_cons (d : Nat) (hd : 1 ≤ d) (dir : Dir) (f : TestFile)
    (r : List Event) :
    inflightBelow d 0 (iterEvents dir f ++ r) = inflightBelow d 0 r := by
  rw [inflightBelow_append]
  have h1 : inflightBelow d 0 (iterEvents dir f) = true := by
    simp [iterEvents, inflightBelow, inflightStep, hd]
  have h2 : (iterEvents dir f).foldl inflightStep 0 = 0 := rfl
  rw [h1, h2, Bool.true_and]

theorem inflightBelow_flatten {α : Type} (d : Nat) (hd : 1 ≤ d) (dir : Dir)
    (g : α → TestFile) (l : List α) (r : List Event) :
    inflightBelow d 0 ((l.map (fun a => iterEvents dir (g a))).flatten ++ r)
      = inflightBelow d 0 r := by
  induction l with
  | nil => rfl
  | cons a t ih =>
    rw [List.map_cons, List.flatten_cons, List.append_assoc,
        inflightBelow_iter_cons d hd, ih]

theorem inflightBelow_unlinks (d : Nat) (fl : List TestFile) (r : List Event) :
    inflightBelow d 0 (fl.map Event.unlink ++ r) = inflightBelow d 0 r := by
  induction fl with
  | nil => rfl
  | cons f t ih => simpa [inflightBelow, inflightStep] using ih

theorem inflightBelow_sizeEvents (d : Nat) (hd : 1 ≤ d) (s : Int) (n : Nat)
    (r : List Event) :
    inflightBelow d 0 (sizeEvents s n ++ r) = inflightBelow d 0 r := by
  rw [sizeEvents_eq, List.append_assoc, List.append_assoc,
      inflightBelow_flatten d hd, inflightBelow_flatten d hd, inflightBelow_unlinks]

theorem inflightBelow_benchmark (d : Nat) (hd : 1 ≤ d) (sizes : List Int) (n : Nat) :
    inflightBelow d 0 (benchmarkEvents sizes n) = true := by
  unfold benchmarkEvents
  have hmk : ∀ r, inflightBelow d 0 (Event.mkdir :: r) = inflightBelow d 0 r :=
    fun r => rfl
  rw [hmk]
  induction sizes with
  | nil => rfl
  | cons s t ih =>
    rw [List.map_cons, List.flatten_cons, inflightBelow_sizeEvents d hd, ih]

theorem submitThenWait_iter_cons (dir : Dir) (f : TestFile) (r : List Event) :
    submitThenWait (iterEvents dir f ++ r) = submitThenWait r := rfl

theorem submitThenWait_flatten {α : Type} (dir : Dir) (g : α → TestFile)
    (l : List α) (r : List Event) :
    submitThenWait ((l.map (fun a => iterEvents dir (g a))).flatten ++ r)
      = submitThenWait r := by
  induction l with
  | nil => rfl
  | cons a t ih =>
    rw [List.map_cons, List.flatten_cons, List.append_assoc,
        submitThenWait_iter_cons, ih]

theorem submitThenWait_unlinks (fl : List TestFile) (r : List Event) :
    submitThenWait (fl.map Event.unlink ++ r) = submitThenWait r := by
  induction fl with
  | nil => rfl
  | cons f t ih => exact ih

theorem submitThenWait_sizeEvents (s : Int) (n : Nat) (r : List Event) :
    submitThenWait (sizeEvents s n ++ r) = submitThenWait r := by
  rw [sizeEvents_eq, List.append_assoc, List.append_assoc,
      submitThenWait_flatten, submitThenWait_flatten, submitThenWait_unlinks]

theorem timedPairsOK_iter_cons (dir : Dir) (f : TestFile) (r : List Event) :
    timedPairsOK (iterEvents dir f ++ r) = timedPairsOK r := rfl

theorem timedPairsOK_flatten {α : Type} (dir : Dir) (g : α → TestFile)
    (l : List α) (r : List Event) :
    timedPairsOK ((l.map (fun a => iterEvents dir (g a))).flatten ++ r)
      = timedPairsOK r := by
  induction l with
  | nil => rfl
  | cons a t ih =>
    rw [List.map_cons, List.flatten_cons, List.append_assoc,
        timedPairsOK_iter_cons, ih]

theorem timedPairsOK_unlinks (fl : List TestFile) (r : List Event) :
    timedPairsOK (fl.map Event.unlink ++ r) = timedPairsOK r := by
  induction fl with
  | nil => rfl
  | cons f t ih => exact ih

theorem timedPairsOK_sizeEvents (s : Int) (n : Nat) (r : List Event) :
    timedPairsOK (sizeEvents s n ++ r) = timedPairsOK r := by
  rw [sizeEvents_eq, List.append_assoc, List.append_assoc,
      timedPairsOK_flatten, timedPairsOK_flatten, timedPairsOK_unlinks]

/-- C2: in every benchmark iteration the `wait()` is issued immediately
after the single submission and before any further submission
(`submitThenWait`), so the in-flight count never exceeds one
(`inflightBelow 1`), and hence never exceeds any configured queue depth
of at least one. -/
theorem c2_queue_depth (tensor_sizes : List Int) (iterations queue_depth : Nat)
    (h : 1 ≤ queue_depth) :
    submitThenWait (benchmarkEvents tensor_sizes iterations) = true ∧
    inflightBelow 1 0 (benchmarkEvents tensor_sizes iterations) = true ∧
    inflightBelow queue_depth 0 (benchmarkEvents tensor_sizes iterations) = true := by
  refine ⟨?_, inflightBelow_benchmark 1 (le_refl 1) _ _,
    inflightBelow_benchmark queue_depth h _ _⟩
  unfold benchmarkEvents
  have hmk : ∀ r, submitThenWait (Event.mkdir :: r) = submitThenWait r :=
    fun r => rfl
  rw [hmk]
  induction tensor_sizes with
  | nil => rfl
  | cons s t ih =>
    rw [List.map_cons, List.flatten_cons, submitThenWait_sizeEvents, ih]

/-- Witness for C2 with two sizes, two iterations and the default queue
depth 64. -/
theorem c2_queue_depth_witness :
    submitThenWait (benchmarkEvents [2097152, 8388608] 2) = true ∧
    inflightBelow 1 0 (benchmarkEvents [2097152, 8388608] 2) = true ∧
    inflightBelow 64 0 (benchmarkEvents [2097152, 8388608] 2) = true :=
  c2_queue_depth [2097152, 8388608] 2 64 (by decide)

/-- C3: for every write and read operation, the two `perf_counter`
timestamps bracket exactly the submit+wait pair: between each start
timestamp and its matching end timestamp the trace contains exactly the
submission and the `wait()`, and nothing else is timed. -/
theorem c3_timestamps_bracket (tensor_sizes : List Int) (iterations : Nat) :
    timedPairsOK (benchmarkEvents tensor_sizes iterations) = true := by
  unfold benchmarkEvents
  have hmk : ∀ r, timedPairsOK (Event.mkdir :: r) = timedPairsOK r :=
    fun r => rfl
  rw [hmk]
  induction tensor_sizes with
  | nil => rfl
  | cons s t ih =>
    rw [List.map_cons, List.flatten_cons, timedPairsOK_sizeEvents, ih]

/-! ## C7: file lifecycle -/

theorem runFS_append (fs : FS) (a b : List Event) :
    runFS fs (a ++ b) = runFS (runFS fs a) b :=
  List.foldl_append applyEvent fs a b

theorem applyEvent_dirExists {fs : FS} (h : fs.dirExists = true) (e : Event) :
    (applyEvent fs e).dirExists = true := by
  cases e with
  | rmtree => exact h
  | mkdir => rfl
  | alloc => exact h
  | timerStart => exact h
  | submit d f => cases d with
    | write => exact h
    | read => exact h
  | wait => exact h
  | timerEnd => exact h
  | record d => exact h
  | unlink f => exact h

theorem runFS_dirExists {fs : FS} (h : fs.dirExists = true) (es : List Event) :
    (runFS fs es).dirExists = true := by
  induction es generalizing fs with
  | nil => exact h
  | cons e t ih => exact ih (applyEvent_dirExists h e)

theorem mem_files_runFS {p : TestFile} {es : List Event} {fs : FS}
    (h : p ∈ (runFS fs es).files) :
    p ∈ fs.files ∨ Event.submit Dir.write p ∈ es := by
  induction es generalizing fs with
  | nil => exact Or.inl h
  | cons e t ih =>
    have h2 : p ∈ (runFS (applyEvent fs e) t).files := h
    rcases ih h2 with h1 | h1
    · cases e with
      | submit d f =>
        cases d with
        | write =>
          have h1c : p ∈ f :: fs.files := h1
          rcases List.mem_cons.mp h1c with rfl | hm
          · exact Or.inr (List.mem_cons_self _ _)
          · exact Or.inl hm
        | read => exact Or.inl h1
      | unlink f =>
        have h1f : p ∈ fs.files.filter (fun g => !(decide (g = f))) := h1
        exact Or.inl (List.mem_of_mem_filter h1f)
      | mkdir => exact Or.inl h1
      | rmtree => exact Or.inl h1
      | alloc => exact Or.inl h1
      | timerStart => exact Or.inl h1
      | wait => exact Or.inl h1
      | timerEnd => exact Or.inl h1
      | record d => exact Or.inl h1
    · exact Or.inr (List.mem_cons_of_mem _ h1)

theorem unlinks_preserve_not_mem {p : TestFile} (fl : List TestFile) {fs : FS}
    (h : p ∉ fs.files) : p ∉ (runFS fs (fl.map Event.unlink)).files := by
  intro hmem
  rcases mem_files_runFS hmem with h1 | h1
  · exact h h1
  · rw [List.mem_map] at h1
    obtain ⟨x, -, hx⟩ := h1
    exact absurd hx (by simp)

theorem unlinks_clean {p : TestFile} (fl : List TestFile) (hp : p ∈ fl) (fs : FS) :
    p ∉ (runFS fs (fl.map Event.unlink)).files := by
  induction fl generalizing fs with
  | nil => exact absurd hp (by simp)
  | cons f t ih =>
    rw [List.map_cons]
    have hstep : runFS fs (Event.unlink f :: t.map Event.unlink)
        = runFS (applyEvent fs (Event.unlink f)) (t.map Event.unlink) := rfl
    rw [hstep]
    rcases List.mem_cons.mp hp with rfl | hm
    · apply unlinks_preserve_not_mem
      have : (applyEvent fs (Event.unlink p)).files
          = fs.files.filter (fun g => !(decide (g = p))) := rfl
      rw [this]
      simp [List.mem_filter]
    · exact ih hm _

theorem sizeEvents_clean (s : Int) (n : Nat) (fs : FS) {i : Nat} (hi : i < n) :
    TestFile.mk s i ∉ (runFS fs (sizeEvents s n)).files := by
  rw [sizeEvents_eq, runFS_append]
  exact unlinks_clean _
    (List.mem_map_of_mem (fun i => TestFile.mk s i) (List.mem_range.mpr hi)) _

theorem submit_mem_flatten_iter {α : Type} {d : Dir} {p : TestFile} {dir : Dir}
    {g : α → TestFile} {l : List α}
    (h : Event.submit d p ∈ (l.map (fun a => iterEvents dir (g a))).flatten) :
    ∃ a ∈ l, p = g a := by
  rw [List.mem_flatten] at h
  obtain ⟨blk, hblk, hmem⟩ := h
  rw [List.mem_map] at hblk
  obtain ⟨a, ha, rfl⟩ := hblk
  simp only [iterEvents, List.mem_cons, List.not_mem_nil, or_false] at hmem
  rcases hmem with h | h | h | h | h | h
  · exact Event.noConfusion h
  · exact Event.noConfusion h
  · rw [Event.submit.injEq] at h
    exact ⟨a, ha, h.2⟩
  · exact Event.noConfusion h
  · exact Event.noConfusion h
  · exact Event.noConfusion h

theorem submit_mem_sizeEvents {d : Dir} {p : TestFile} {s : Int} {n : Nat}
    (h : Event.submit d p ∈ sizeEvents s n) : ∃ j, p = TestFile.mk s j := by
  rw [sizeEvents_eq] at h
  rcases List.mem_append.mp h with h | h
  · rcases List.mem_append.mp h with h | h
    · obtain ⟨j, -, hj⟩ := submit_mem_flatten_iter h
      exact ⟨j, hj⟩
    · obtain ⟨j, -, hj⟩ := submit_mem_flatten_iter h
      exact ⟨j, hj⟩
  · rw [List.mem_map] at h
    obtain ⟨x, -, hx⟩ := h
    exact absurd hx (by simp)

theorem segments_preserve_not_mem (sizes : List Int) (n : Nat) (p : TestFile) :
    ∀ fs, p ∉ fs.files → (∀ s ∈ sizes, ∀ j, p ≠ TestFile.mk s j) →
      p ∉ (runFS fs ((sizes.map (fun s => sizeEvents s n)).flatten)).files := by
  induction sizes with
  | nil => intro fs h _; exact h
  | cons s2 rest ih =>
    intro fs h hne
    rw [List.map_cons, List.flatten_cons, runFS_append]
    apply ih
    · intro hmem
      rcases mem_files_runFS hmem with h1 | h1
      · exact h h1
      · obtain ⟨j, rfl⟩ := submit_mem_sizeEvents h1
        exact hne s2 (List.mem_cons_self _ _) j rfl
    · intro s1 hs1 j
      exact hne s1 (List.mem_cons_of_mem _ hs1) j

theorem clean_all_sizes (sizes : List Int) (n : Nat) :
    ∀ fs s, s ∈ sizes → ∀ i, i < n →
      TestFile.mk s i ∉ (runFS fs ((sizes.map (fun s => sizeEvents s n)).flatten)).files := by
  induction sizes with
  | nil => intro fs s hs; exact absurd hs (by simp)
  | cons s2 rest ih =>
    intro fs s hs i hi
    rw [List.map_cons, List.flatten_cons, runFS_append]
    by_cases hmem : s ∈ rest
    · exact ih _ s hmem i hi
    · have hs2 : s = s2 := by
        rcases List.mem_cons.mp hs with h | h
        · exact h
        · exact absurd h hmem
      subst hs2
      apply segments_preserve_not_mem
      · exact sizeEvents_clean s n fs hi
      · intro s1 hs1 j heq
        rw [TestFile.mk.injEq] at heq
        exact hmem (heq.1 ▸ hs1)

/-- C7: the benchmark owns the file lifecycle: the trace begins by creating
the NVMe directory (before any I/O), the directory exists in the final
filesystem state, and after the benchmark no test file of any benchmarked
size remains (each per-size segment unlinks every file it created, with a
missing file treated as success since `unlink` is a no-op on absent
files). -/
theorem c7_file_lifecycle (tensor_sizes : List Int) (iterations : Nat) (fs0 : FS) :
    (benchmarkEvents tensor_sizes iterations).head? = some Event.mkdir ∧
    (runFS fs0 (benchmarkEvents tensor_sizes iterations)).dirExists = true ∧
    ∀ s ∈ tensor_sizes, ∀ i, i < iterations →
      TestFile.mk s i ∉ (runFS fs0 (benchmarkEvents tensor_sizes iterations)).files := by
  refine ⟨rfl, ?_, ?_⟩
  · exact @runFS_dirExists { fs0 with dirExists := true } rfl _
  · intro s hs i hi
    exact clean_all_sizes tensor_sizes iterations { fs0 with dirExists := true } s hs i hi

/-- Witness for C7: one size, one iteration, starting from a filesystem
that already contains the test file; afterwards the directory exists and
the file is gone. -/
theorem c7_file_lifecycle_witness :
    (benchmarkEvents [7] 1).head? = some Event.mkdir ∧
    (runFS ⟨false, [TestFile.mk 7 0]⟩ (benchmarkEvents [7] 1)).dirExists = true ∧
    TestFile.mk 7 0 ∉ (runFS ⟨false, [TestFile.mk 7 0]⟩ (benchmarkEvents [7] 1)).files := by
  obtain ⟨h1, h2, h3⟩ := c7_file_lifecycle [7] 1 ⟨false, [TestFile.mk 7 0]⟩
  exact ⟨h1, h2, h3 7 (by simp) 0 (by decide)⟩

end DSAIO
